import Mathlib

/-!
Verification of the gotpi image one-time-pad library (`otp.go`).

The embedding models Go's `image`/`color` machinery at the level this
program uses it:

* a Go `color.Color` is observed only through its `RGBA()` method, which
  yields alpha-premultiplied channels in the range `[0, 0xffff]`; we model
  such an observed color as a quadruple of naturals (`Color`);
* a Go `image.Image` is observed only through `Bounds()` and `At`; every
  image this program builds has canonical bounds `Rect(0,0,w,h)` (after the
  `image.Rect` swap-canonicalisation for negative sizes), so we model an
  image as a width, a height and a total pixel function, with coordinates
  translated so that the minimum corner is the origin.  Go's raster images
  return the zero color outside their bounds, which the pixel functions
  reproduce;
* an `image.RGBA` stores 8-bit channel bytes; `Set` converts the written
  color through `color.RGBAModel` (`uint8(c >> 8)` on each 16-bit channel)
  and `At` re-expands a stored byte `b` to `b | b << 8 = 257 * b`.  An
  `image.NRGBA` behaves the same way for the fully-opaque colors this
  program writes into it;
* machine integers are naturals with the truncations written out:
  `uint8 n = n % 256`, `uint16 n = n % 65536`, `n >> 8 = n / 256`.

The external collaborators (`nfnt/resize` and `crypto/rand`) are
parameters: `Encrypt` takes the resize filter as a function argument, and
the key generators take the random byte stream as a function from the draw
index to `Option Nat` (`none` models a failed read; the Go code ignores
`rand.Read`'s error, leaving the zero-initialised buffer in place, which is
what `readByte` computes).
-/

namespace Gotpi

/-- Truncation to a byte, Go's `uint8(...)` conversion. -/
def uint8 (n : Nat) : Nat := n % 256

/-- Truncation to 16 bits, Go's `uint16(...)` conversion. -/
def uint16 (n : Nat) : Nat := n % 65536

/-- A color as observed through Go's `color.Color.RGBA()` method:
alpha-premultiplied red, green, blue, alpha, each intended in `[0, 0xffff]`. -/
structure Color where
  r : Nat
  g : Nat
  b : Nat
  a : Nat
deriving DecidableEq, Repr

/-- The zero color, what Go raster images return outside their bounds. -/
def Color.zero : Color := ⟨0, 0, 0, 0⟩

/-- The 8-bit red channel the program extracts from a color:
`uint8(r >> 8)` in the Go source. -/
def Color.r8 (c : Color) : Nat := uint8 (c.r / 256)

/-- The 8-bit green channel, `uint8(g >> 8)`. -/
def Color.g8 (c : Color) : Nat := uint8 (c.g / 256)

/-- The 8-bit blue channel, `uint8(b >> 8)`. -/
def Color.b8 (c : Color) : Nat := uint8 (c.b / 256)

/-- The 8-bit alpha channel, `uint8(a >> 8)`. -/
def Color.a8 (c : Color) : Nat := uint8 (c.a / 256)

/-- The four stored channel bytes of one `image.RGBA` (or opaque
`image.NRGBA`) pixel. -/
structure RGBA8 where
  r : Nat
  g : Nat
  b : Nat
  a : Nat
deriving DecidableEq, Repr

/-- Storing a color into an `image.RGBA` pixel: `color.RGBAModel`
keeps `uint8(channel >> 8)` of each 16-bit channel. -/
def rgbaStore (c : Color) : RGBA8 := ⟨c.r8, c.g8, c.b8, c.a8⟩

/-- Reading a stored pixel back through `RGBA()`: each byte `b` becomes
`uint32(b) | uint32(b) << 8 = 257 * b`. -/
def expandRGBA (p : RGBA8) : Color :=
  ⟨uint8 p.r * 257, uint8 p.g * 257, uint8 p.b * 257, uint8 p.a * 257⟩

/-- A Go `image.Image` as this program observes it: `Bounds()` gives
`width × height` (translated to the origin) and `At` gives the pixel,
`Color.zero` outside the bounds. -/
structure Image where
  width : Nat
  height : Nat
  At : Nat → Nat → Color

/-- Go source: `type Pixel bool`. -/
abbrev Pixel := Bool

/-- Go source: `Black Pixel = true`. -/
def Black : Pixel := true

/-- Go source: `White Pixel = false`. -/
def White : Pixel := false

/-- Go source, method `Pixel.RGBA`: black is `(0,0,0,0xffff)`, white is
`(0xffff,0xffff,0xffff,0xffff)`. -/
def Pixel.RGBA (c : Pixel) : Color :=
  if c = Black then ⟨0, 0, 0, 0xffff⟩ else ⟨0xffff, 0xffff, 0xffff, 0xffff⟩

/-- Go source, `monoModel`: luminance
`y = (299*r + 587*g + 114*b + 500) / 1000` on the 16-bit channels, pixel is
`Pixel(uint16(y) < 0x8000)` (`Black = true`).  The Go function first returns
any color that already is a `Pixel` unchanged; at every call site of this
program the argument comes from a raster image's `At`, which never yields a
`Pixel`, so the luminance branch is the one embedded. -/
def monoModel (c : Color) : Pixel :=
  decide (uint16 ((299 * c.r + 587 * c.g + 114 * c.b + 500) / 1000) < 0x8000)

/-- Go source, body of the per-pixel loop of `encRGB`: XOR the 8-bit
channels of the (already resized) source pixel and the key pixel, alpha 255.
The stored bytes of the output pixel at `(x, y)`. -/
def encRGB (img k : Image) (x y : Nat) : RGBA8 :=
  ⟨(img.At x y).r8 ^^^ (k.At x y).r8,
   (img.At x y).g8 ^^^ (k.At x y).g8,
   (img.At x y).b8 ^^^ (k.At x y).b8,
   255⟩

/-- Go source, body of the per-pixel loops of `encBW`.  Pass A converts the
(already resized) source pixel through `MonochromeModel` and stores it into
the intermediate `image.RGBA` `monoResized`; pass B reads that pixel back,
converts it and the key pixel through `MonochromeModel` again, and writes
`White` when the two tags agree and `Black` otherwise.  Both passes visit
the same coordinate ranges, so the composition is per-pixel. -/
def encBW (img k : Image) (x y : Nat) : RGBA8 :=
  let monoResizedAt : Color := expandRGBA (rgbaStore (Pixel.RGBA (monoModel (img.At x y))))
  let origPixel : Pixel := monoModel monoResizedAt
  let keyPixel : Pixel := monoModel (k.At x y)
  let result : Pixel := if origPixel ≠ keyPixel then Black else White
  rgbaStore (Pixel.RGBA result)

/-- Go source, `Encrypt`: resize the source to the key's dimensions with the
external `nfnt/resize` collaborator (passed here as the parameter
`resizeFn`), allocate `out := image.NewRGBA(keyImg.Bounds())`, fill it with
`encRGB` or `encBW`, and return it.  The returned `image.RGBA` exposes every
written pixel re-expanded through `RGBA()` and the zero color outside the
key's bounds. -/
def Encrypt (resizeFn : Nat → Nat → Image → Image)
    (img keyImg : Image) (rgb : Bool) : Image :=
  let w := keyImg.width
  let h := keyImg.height
  let resized := resizeFn w h img
  { width := w
    height := h
    At := fun x y =>
      if x < w ∧ y < h then
        expandRGBA (if rgb then encRGB resized keyImg x y else encBW resized keyImg x y)
      else Color.zero }

/-- Go source, `Decrypt`: literally `return Encrypt(img, keyImg, rgb)`. -/
def Decrypt (resizeFn : Nat → Nat → Image → Image)
    (img keyImg : Image) (rgb : Bool) : Image :=
  Encrypt resizeFn img keyImg rgb

/-- Storing a color into an `image.NRGBA` pixel, Go's `color.NRGBAModel`:
a fully opaque color keeps its channel bytes, a fully transparent one
becomes zero, anything else is un-premultiplied first. -/
def nrgbaStore (c : Color) : RGBA8 :=
  if c.a = 0xffff then ⟨c.r8, c.g8, c.b8, 0xff⟩
  else if c.a = 0 then ⟨0, 0, 0, 0⟩
  else ⟨uint8 (c.r * 0xffff / c.a / 256), uint8 (c.g * 0xffff / c.a / 256),
        uint8 (c.b * 0xffff / c.a / 256), c.a8⟩

/-- Reading an `image.NRGBA` pixel back through `RGBA()`: each channel byte
`v` becomes `(257 * v) * a / 255` with the 16-bit alpha `257 * a`. -/
def expandNRGBA (p : RGBA8) : Color :=
  ⟨uint8 p.r * 257 * uint8 p.a / 255, uint8 p.g * 257 * uint8 p.a / 255,
   uint8 p.b * 257 * uint8 p.a / 255, uint8 p.a * 257⟩

/-- One byte drawn from the random source.  Go declares a zero-initialised
buffer, calls `rand.Read` and discards its error, so a failed read (`none`)
leaves the byte `0`. -/
def readByte (rng : Nat → Option Nat) (i : Nat) : Nat := ((rng i).getD 0) % 256

/-- Go source, body of the `keyGenBW` loop: `if b[0]&1 == 0` the pixel is
`Black`, else `White`. -/
def bwPixel (b : Nat) : Pixel := if b % 2 = 0 then Black else White

/-- Go source, `keyGenBW`: allocate `image.NewNRGBA(image.Rect(0,0,w,h))`
(whose canonicalised bounds have `Dx = |w|`, `Dy = |h|`), then for each
`y < h`, `x < w` (row-major, so pixel `(x, y)` consumes draw `y*w + x`)
read one random byte and set the pixel from its least-significant bit.
For non-positive sizes the loops do not run and every allocated pixel stays
at the zero `NRGBA` value. -/
def keyGenBW (width height : Int) (rng : Nat → Option Nat) : Image :=
  { width := width.natAbs
    height := height.natAbs
    At := fun x y =>
      if x < width.natAbs ∧ y < height.natAbs then
        if x < width.toNat ∧ y < height.toNat then
          expandNRGBA (nrgbaStore (Pixel.RGBA (bwPixel (readByte rng (y * width.toNat + x)))))
        else expandNRGBA ⟨0, 0, 0, 0⟩
      else Color.zero }

/-- Go source, `keyGenRGB`: same grid as `keyGenBW`, but each pixel consumes
three random bytes (draws `3k`, `3k+1`, `3k+2` for pixel ordinal
`k = y*w + x`) and stores `color.RGBA{pix[0], pix[1], pix[2], 255}`. -/
def keyGenRGB (width height : Int) (rng : Nat → Option Nat) : Image :=
  { width := width.natAbs
    height := height.natAbs
    At := fun x y =>
      if x < width.natAbs ∧ y < height.natAbs then
        if x < width.toNat ∧ y < height.toNat then
          expandNRGBA (nrgbaStore (expandRGBA
            ⟨readByte rng (3 * (y * width.toNat + x)),
             readByte rng (3 * (y * width.toNat + x) + 1),
             readByte rng (3 * (y * width.toNat + x) + 2), 255⟩))
        else expandNRGBA ⟨0, 0, 0, 0⟩
      else Color.zero }

/-- Go source, `KeyGen` (library version in `otp.go`): dispatch on the `rgb`
flag, key is always generated at size `kw × kw`.  There is no validation and
no error return: the Go signature is `KeyGen(kw int, rgb bool) image.Image`. -/
def KeyGen (kw : Int) (rgb : Bool) (rng : Nat → Option Nat) : Image :=
  if rgb then keyGenRGB kw kw rng else keyGenBW kw kw rng

/-- Go source, the historical `KeyGen(keyFile string, kw int, rgb bool)`
variant: it takes the output key-file path as its first argument but its
body never uses it (no file is read or written; persistence is done by the
caller via `save`). -/
def KeyGenWithPath (keyFile : String) (kw : Int) (rgb : Bool)
    (rng : Nat → Option Nat) : Image :=
  if rgb then keyGenRGB kw kw rng else keyGenBW kw kw rng

/-- A fully opaque 8-bit color as a PNG decoder presents it through
`RGBA()`: each byte `v` appears as `257 * v`, alpha `0xffff`. -/
def c8 (r g b : Nat) : Color := ⟨r * 257, g * 257, b * 257, 0xffff⟩

/-- Model of the external `nfnt/resize` collaborator, used to instantiate
the `resizeFn` parameter in concrete computations: `resize.Resize` returns
its input unchanged when the target size equals the source size (the
library's trivial case); other target sizes are irrelevant to the claims
and produce a blank image here. -/
def resizeTrivial (w h : Nat) (i : Image) : Image :=
  if i.width = w ∧ i.height = h then i else ⟨w, h, fun _ _ => Color.zero⟩

/-- The 2×2 resized source of the spec's RGB round-trip example. -/
def srcEx : Image :=
  ⟨2, 2, fun x y =>
    if x < 2 ∧ y < 2 then
      if y = 0 then (if x = 0 then c8 5 6 7 else c8 8 9 10)
      else (if x = 0 then c8 11 12 13 else c8 14 15 16)
    else Color.zero⟩

/-- The 2×2 key of the spec's RGB round-trip example. -/
def keyEx : Image :=
  ⟨2, 2, fun x y =>
    if x < 2 ∧ y < 2 then
      if y = 0 then (if x = 0 then c8 10 20 30 else c8 40 50 60)
      else (if x = 0 then c8 70 80 90 else c8 100 110 120)
    else Color.zero⟩

/-- The channel-wise XOR of `srcEx` and `keyEx`, the deterministic
ciphertext the example must produce. -/
def cipherEx : Image :=
  ⟨2, 2, fun x y =>
    if x < 2 ∧ y < 2 then
      if y = 0 then (if x = 0 then c8 15 18 25 else c8 32 59 54)
      else (if x = 0 then c8 77 92 87 else c8 106 97 104)
    else Color.zero⟩

lemma uint8_lt (n : Nat) : uint8 n < 256 := Nat.mod_lt _ (by norm_num)

lemma uint8_eq_of_lt {n : Nat} (h : n < 256) : uint8 n = n := Nat.mod_eq_of_lt h

lemma mul257_div256 {u : Nat} (h : u < 256) : u * 257 / 256 = u := by
  have h2 : u * 257 = u + 256 * u := by ring
  rw [h2, Nat.add_mul_div_left _ _ (by norm_num : 0 < 256), Nat.div_eq_of_lt h,
    Nat.zero_add]

lemma expandRGBA_r8 (p : RGBA8) : (expandRGBA p).r8 = uint8 p.r := by
  simp only [expandRGBA, Color.r8]
  rw [mul257_div256 (uint8_lt p.r), uint8_eq_of_lt (uint8_lt p.r)]

lemma expandRGBA_g8 (p : RGBA8) : (expandRGBA p).g8 = uint8 p.g := by
  simp only [expandRGBA, Color.g8]
  rw [mul257_div256 (uint8_lt p.g), uint8_eq_of_lt (uint8_lt p.g)]

lemma expandRGBA_b8 (p : RGBA8) : (expandRGBA p).b8 = uint8 p.b := by
  simp only [expandRGBA, Color.b8]
  rw [mul257_div256 (uint8_lt p.b), uint8_eq_of_lt (uint8_lt p.b)]

lemma expandRGBA_a8 (p : RGBA8) : (expandRGBA p).a8 = uint8 p.a := by
  simp only [expandRGBA, Color.a8]
  rw [mul257_div256 (uint8_lt p.a), uint8_eq_of_lt (uint8_lt p.a)]

lemma xor8_lt {a b : Nat} (ha : a < 256) (hb : b < 256) : a ^^^ b < 256 := by
  have : a ^^^ b < 2 ^ 8 := Nat.xor_lt_two_pow (by exact ha) (by exact hb)
  simpa using this

lemma r8_lt (c : Color) : c.r8 < 256 := uint8_lt _

lemma g8_lt (c : Color) : c.g8 < 256 := uint8_lt _

lemma b8_lt (c : Color) : c.b8 < 256 := uint8_lt _

/-- Storing a `Pixel` into an RGBA raster and reading it back yields the
pixel's own color unchanged. -/
lemma pixel_store_roundtrip (p : Pixel) :
    expandRGBA (rgbaStore (Pixel.RGBA p)) = Pixel.RGBA p := by
  cases p <;> rfl

/-- Re-binarising a stored `Pixel` recovers the same tag: the pure black and
pure white colors binarise to `Black` and `White` respectively. -/
lemma monoModel_store_roundtrip (p : Pixel) :
    monoModel (expandRGBA (rgbaStore (Pixel.RGBA p))) = p := by
  cases p <;> rfl

/-- In-bounds pixel of an RGB-mode `Encrypt` result. -/
lemma Encrypt_At_rgb (resizeFn : Nat → Nat → Image → Image) (img k : Image)
    {x y : Nat} (hx : x < k.width) (hy : y < k.height) :
    (Encrypt resizeFn img k true).At x y
      = expandRGBA (encRGB (resizeFn k.width k.height img) k x y) := by
  simp [Encrypt, hx, hy]

/-- In-bounds pixel of a monochrome-mode `Encrypt` result. -/
lemma Encrypt_At_bw (resizeFn : Nat → Nat → Image → Image) (img k : Image)
    {x y : Nat} (hx : x < k.width) (hy : y < k.height) :
    (Encrypt resizeFn img k false).At x y
      = expandRGBA (encBW (resizeFn k.width k.height img) k x y) := by
  simp [Encrypt, hx, hy]

/-- The monochrome per-pixel rule collapsed: the intermediate store/reload
of the binarised source pixel is the identity on tags, so the output pixel
is `White` exactly when the two tags agree. -/
lemma encBW_eq (img k : Image) (x y : Nat) :
    encBW img k x y
      = rgbaStore (Pixel.RGBA
          (if monoModel (img.At x y) = monoModel (k.At x y) then White else Black)) := by
  simp only [encBW, monoModel_store_roundtrip]
  by_cases h : monoModel (img.At x y) = monoModel (k.At x y) <;> simp [h]

lemma xor_roundtrip8 {a b : Nat} (ha : a < 256) (hb : b < 256) :
    uint8 (uint8 (a ^^^ b) ^^^ b) = a := by
  rw [uint8_eq_of_lt (xor8_lt ha hb),
    uint8_eq_of_lt (xor8_lt (xor8_lt ha hb) hb), Nat.xor_cancel_right]

lemma resizeTrivial_id : ∀ w h i, i.width = w → i.height = h →
    resizeTrivial w h i = i := by
  intro w h i hw hh
  simp [resizeTrivial, hw, hh]

/-- C1.  `Decrypt` is the identical operation to `Encrypt` (for every
source, key and mode flag), and in RGB mode the common transform is an
involution: whenever the source already has the key's dimensions, so that
the resize collaborator returns it unchanged (its trivial case, assumed in
`hres`), encrypting twice with the same key restores every 8-bit
red/green/blue channel exactly. -/
theorem decrypt_eq_encrypt_and_rgb_involution
    (resizeFn : Nat → Nat → Image → Image)
    (hres : ∀ w h i, i.width = w → i.height = h → resizeFn w h i = i)
    (S K R : Image) (rgb : Bool)
    (hw : R.width = K.width) (hh : R.height = K.height) :
    Decrypt resizeFn S K rgb = Encrypt resizeFn S K rgb ∧
    ∀ x, x < K.width → ∀ y, y < K.height →
      ((Encrypt resizeFn (Encrypt resizeFn R K true) K true).At x y).r8
          = (R.At x y).r8 ∧
      ((Encrypt resizeFn (Encrypt resizeFn R K true) K true).At x y).g8
          = (R.At x y).g8 ∧
      ((Encrypt resizeFn (Encrypt resizeFn R K true) K true).At x y).b8
          = (R.At x y).b8 := by
  refine ⟨rfl, fun x hx y hy => ?_⟩
  have h1 : (Encrypt resizeFn R K true).At x y = expandRGBA (encRGB R K x y) := by
    rw [Encrypt_At_rgb resizeFn R K hx hy, hres _ _ _ hw hh]
  have h2 : (Encrypt resizeFn (Encrypt resizeFn R K true) K true).At x y
      = expandRGBA (encRGB (Encrypt resizeFn R K true) K x y) := by
    rw [Encrypt_At_rgb resizeFn _ K hx hy,
      hres K.width K.height (Encrypt resizeFn R K true) rfl rfl]
  refine ⟨?_, ?_, ?_⟩
  · rw [h2, expandRGBA_r8]
    simp only [encRGB]
    rw [h1, expandRGBA_r8]
    simp only [encRGB]
    exact xor_roundtrip8 (r8_lt _) (r8_lt _)
  · rw [h2, expandRGBA_g8]
    simp only [encRGB]
    rw [h1, expandRGBA_g8]
    simp only [encRGB]
    exact xor_roundtrip8 (g8_lt _) (g8_lt _)
  · rw [h2, expandRGBA_b8]
    simp only [encRGB]
    rw [h1, expandRGBA_b8]
    simp only [encRGB]
    exact xor_roundtrip8 (b8_lt _) (b8_lt _)

/-- C1 witness: the involution at the concrete 2×2 example images. -/
theorem decrypt_eq_encrypt_and_rgb_involution_witness :
    Decrypt resizeTrivial srcEx keyEx true = Encrypt resizeTrivial srcEx keyEx true ∧
    ∀ x, x < keyEx.width → ∀ y, y < keyEx.height →
      ((Encrypt resizeTrivial (Encrypt resizeTrivial srcEx keyEx true) keyEx true).At x y).r8
          = (srcEx.At x y).r8 ∧
      ((Encrypt resizeTrivial (Encrypt resizeTrivial srcEx keyEx true) keyEx true).At x y).g8
          = (srcEx.At x y).g8 ∧
      ((Encrypt resizeTrivial (Encrypt resizeTrivial srcEx keyEx true) keyEx true).At x y).b8
          = (srcEx.At x y).b8 :=
  decrypt_eq_encrypt_and_rgb_involution resizeTrivial resizeTrivial_id
    srcEx keyEx srcEx true rfl rfl

/-- C2.  In RGB mode every in-bounds output pixel is the channel-wise XOR
of the resized source's and the key's 8-bit channels with fully opaque
alpha (the formula uses only the red/green/blue channels, so the source's
alpha is discarded); and the spec's 2×2 example XORs to its deterministic
ciphertext, XORing which with the same key reproduces the source exactly. -/
theorem encRGB_channel_rule_and_example
    (resizeFn : Nat → Nat → Image → Image) (S K : Image) (x y : Nat)
    (hx : x < K.width) (hy : y < K.height) :
    (((Encrypt resizeFn S K true).At x y).r8
        = ((resizeFn K.width K.height S).At x y).r8 ^^^ (K.At x y).r8 ∧
      ((Encrypt resizeFn S K true).At x y).g8
        = ((resizeFn K.width K.height S).At x y).g8 ^^^ (K.At x y).g8 ∧
      ((Encrypt resizeFn S K true).At x y).b8
        = ((resizeFn K.width K.height S).At x y).b8 ^^^ (K.At x y).b8 ∧
      ((Encrypt resizeFn S K true).At x y).a8 = 255) ∧
    (∀ x2, x2 < 2 → ∀ y2, y2 < 2 →
      (Encrypt resizeTrivial srcEx keyEx true).At x2 y2 = cipherEx.At x2 y2) ∧
    (∀ x2, x2 < 2 → ∀ y2, y2 < 2 →
      (Encrypt resizeTrivial (Encrypt resizeTrivial srcEx keyEx true) keyEx true).At x2 y2
        = srcEx.At x2 y2) := by
  refine ⟨⟨?_, ?_, ?_, ?_⟩, by decide, by decide⟩
  · rw [Encrypt_At_rgb resizeFn S K hx hy, expandRGBA_r8]
    simp only [encRGB]
    exact uint8_eq_of_lt (xor8_lt (r8_lt _) (r8_lt _))
  · rw [Encrypt_At_rgb resizeFn S K hx hy, expandRGBA_g8]
    simp only [encRGB]
    exact uint8_eq_of_lt (xor8_lt (g8_lt _) (g8_lt _))
  · rw [Encrypt_At_rgb resizeFn S K hx hy, expandRGBA_b8]
    simp only [encRGB]
    exact uint8_eq_of_lt (xor8_lt (b8_lt _) (b8_lt _))
  · rw [Encrypt_At_rgb resizeFn S K hx hy, expandRGBA_a8]
    rfl

/-- C2 witness: the channel rule evaluated at pixel (0, 0) of the example. -/
theorem encRGB_channel_rule_and_example_witness :
    (((Encrypt resizeTrivial srcEx keyEx true).At 0 0).r8
        = ((resizeTrivial keyEx.width keyEx.height srcEx).At 0 0).r8 ^^^ (keyEx.At 0 0).r8 ∧
      ((Encrypt resizeTrivial srcEx keyEx true).At 0 0).g8
        = ((resizeTrivial keyEx.width keyEx.height srcEx).At 0 0).g8 ^^^ (keyEx.At 0 0).g8 ∧
      ((Encrypt resizeTrivial srcEx keyEx true).At 0 0).b8
        = ((resizeTrivial keyEx.width keyEx.height srcEx).At 0 0).b8 ^^^ (keyEx.At 0 0).b8 ∧
      ((Encrypt resizeTrivial srcEx keyEx true).At 0 0).a8 = 255) ∧
    (∀ x2, x2 < 2 → ∀ y2, y2 < 2 →
      (Encrypt resizeTrivial srcEx keyEx true).At x2 y2 = cipherEx.At x2 y2) ∧
    (∀ x2, x2 < 2 → ∀ y2, y2 < 2 →
      (Encrypt resizeTrivial (Encrypt resizeTrivial srcEx keyEx true) keyEx true).At x2 y2
        = srcEx.At x2 y2) :=
  encRGB_channel_rule_and_example resizeTrivial srcEx keyEx 0 0
    (by decide) (by decide)

lemma bw_double_flip (t1 t2 : Pixel) :
    (if (if t1 = t2 then White else Black) = t2 then White else Black) = t1 := by
  revert t1 t2
  decide

/-- C3.  In monochrome mode every in-bounds output pixel is `White` when
the binarised tags of the (resized) source pixel and the key pixel agree
and `Black` when they differ; consequently, with the resize collaborator
returning dimension-matched images unchanged (`hres`), applying the
transform twice with the same key yields exactly the monochrome reduction
of the (resized) source at every in-bounds pixel. -/
theorem encBW_equality_white_and_involution
    (resizeFn : Nat → Nat → Image → Image)
    (hres : ∀ w h i, i.width = w → i.height = h → resizeFn w h i = i)
    (S K : Image) (x y : Nat) (hx : x < K.width) (hy : y < K.height) :
    (Encrypt resizeFn S K false).At x y
      = Pixel.RGBA (if monoModel ((resizeFn K.width K.height S).At x y)
            = monoModel (K.At x y) then White else Black) ∧
    (Encrypt resizeFn (Encrypt resizeFn S K false) K false).At x y
      = Pixel.RGBA (monoModel ((resizeFn K.width K.height S).At x y)) := by
  have h1 : (Encrypt resizeFn S K false).At x y
      = Pixel.RGBA (if monoModel ((resizeFn K.width K.height S).At x y)
            = monoModel (K.At x y) then White else Black) := by
    rw [Encrypt_At_bw resizeFn S K hx hy, encBW_eq, pixel_store_roundtrip]
  refine ⟨h1, ?_⟩
  rw [Encrypt_At_bw resizeFn _ K hx hy,
    hres K.width K.height (Encrypt resizeFn S K false) rfl rfl,
    encBW_eq, pixel_store_roundtrip, h1]
  have hp : ∀ p : Pixel, monoModel (Pixel.RGBA p) = p := by decide
  rw [hp, bw_double_flip]

/-- C3 witness: the monochrome rule and its double application at pixel
(0, 0) of the concrete 2×2 example images. -/
theorem encBW_equality_white_and_involution_witness :
    (Encrypt resizeTrivial srcEx keyEx false).At 0 0
      = Pixel.RGBA (if monoModel ((resizeTrivial keyEx.width keyEx.height srcEx).At 0 0)
            = monoModel (keyEx.At 0 0) then White else Black) ∧
    (Encrypt resizeTrivial (Encrypt resizeTrivial srcEx keyEx false) keyEx false).At 0 0
      = Pixel.RGBA (monoModel ((resizeTrivial keyEx.width keyEx.height srcEx).At 0 0)) :=
  encBW_equality_white_and_involution resizeTrivial resizeTrivial_id
    srcEx keyEx 0 0 (by decide) (by decide)

/-- C4.  The monochrome reduction is the exact integer luminance rule: on
16-bit-normalised channels the tag is `Black` exactly when
`(299*r + 587*g + 114*b + 500) / 1000 < 0x8000` (the `uint16` truncation in
the code never fires there), pure black maps to `Black`, pure white maps to
`White`, and every color maps to exactly one of the two tags. -/
theorem monoModel_luminance_rule (c : Color)
    (hr : c.r < 65536) (hg : c.g < 65536) (hb : c.b < 65536) :
    (monoModel c = Black ↔ (299 * c.r + 587 * c.g + 114 * c.b + 500) / 1000 < 0x8000) ∧
    monoModel (c8 0 0 0) = Black ∧
    monoModel (c8 255 255 255) = White ∧
    (∀ d : Color, monoModel d = Black ∨ monoModel d = White) := by
  refine ⟨?_, by decide, by decide, fun d => ?_⟩
  · have hnum : 299 * c.r + 587 * c.g + 114 * c.b + 500 < 65536 * 1000 := by omega
    have hY : (299 * c.r + 587 * c.g + 114 * c.b + 500) / 1000 < 65536 :=
      (Nat.div_lt_iff_lt_mul (by norm_num)).mpr hnum
    unfold monoModel Black uint16
    rw [Nat.mod_eq_of_lt hY]
    exact decide_eq_true_iff
  · rcases Bool.eq_false_or_eq_true (monoModel d) with h | h
    · exact Or.inl h
    · exact Or.inr h

/-- C4 witness: the luminance rule at the concrete color with 8-bit
channels (200, 100, 50). -/
theorem monoModel_luminance_rule_witness :
    (monoModel (c8 200 100 50) = Black ↔
      (299 * (c8 200 100 50).r + 587 * (c8 200 100 50).g
        + 114 * (c8 200 100 50).b + 500) / 1000 < 0x8000) ∧
    monoModel (c8 0 0 0) = Black ∧
    monoModel (c8 255 255 255) = White ∧
    (∀ d : Color, monoModel d = Black ∨ monoModel d = White) :=
  monoModel_luminance_rule (c8 200 100 50) (by decide) (by decide) (by decide)

lemma Image.fields_eq {i j : Image} (hw : i.width = j.width)
    (hh : i.height = j.height) (hA : i.At = j.At) : i = j := by
  cases i
  cases j
  cases hw
  cases hh
  cases hA
  rfl

lemma nrgba_pixel_roundtrip (p : Pixel) :
    expandNRGBA (nrgbaStore (Pixel.RGBA p)) = Pixel.RGBA p := by
  cases p <;> rfl

/-- C5 counterexample.  The claim says a random byte with least-significant
bit 0 yields a `White` pixel; in the code `if b[0]&1 == 0` sets the pixel to
`Black`.  With a random stream producing the byte 0, the single pixel of a
1×1 monochrome key is black, not white. -/
theorem keyGenBW_lsb_zero_gives_black :
    (KeyGen 1 false (fun _ => some 0)).At 0 0 = Pixel.RGBA Black ∧
    Pixel.RGBA Black ≠ Pixel.RGBA White := by
  exact ⟨by decide, by decide⟩

/-- C5 amended.  In monochrome key generation each pixel consumes exactly
one random byte (pixel `(x, y)` uses draw `y*w + x`) and its
least-significant bit decides the pixel: bit 0 gives `Black`, bit 1 gives
`White`; the other seven bits are discarded. -/
theorem keyGenBW_one_byte_lsb_rule (width height : Int) (rng : Nat → Option Nat)
    (x y : Nat) (hx : x < width.toNat) (hy : y < height.toNat) :
    (keyGenBW width height rng).At x y
      = Pixel.RGBA (bwPixel (readByte rng (y * width.toNat + x))) ∧
    bwPixel (readByte rng (y * width.toNat + x))
      = (if readByte rng (y * width.toNat + x) % 2 = 0 then Black else White) ∧
    (∀ b b2 : Nat, b % 2 = b2 % 2 → bwPixel b = bwPixel b2) := by
  refine ⟨?_, rfl, fun b b2 h => ?_⟩
  · have hx2 : x < width.natAbs := by omega
    have hy2 : y < height.natAbs := by omega
    show (if x < width.natAbs ∧ y < height.natAbs then
        if x < width.toNat ∧ y < height.toNat then
          expandNRGBA (nrgbaStore (Pixel.RGBA (bwPixel (readByte rng (y * width.toNat + x)))))
        else expandNRGBA ⟨0, 0, 0, 0⟩
      else Color.zero) = _
    rw [if_pos ⟨hx2, hy2⟩, if_pos ⟨hx, hy⟩, nrgba_pixel_roundtrip]
  · unfold bwPixel
    rw [h]

/-- C5 amended, witness: byte 3 (odd) at pixel (1, 0) of a 2×2 key gives a
white pixel. -/
theorem keyGenBW_one_byte_lsb_rule_witness :
    (keyGenBW 2 2 (fun i => some (3 * i))).At 1 0
      = Pixel.RGBA (bwPixel (readByte (fun i => some (3 * i)) (0 * (2:Int).toNat + 1))) ∧
    bwPixel (readByte (fun i => some (3 * i)) (0 * (2:Int).toNat + 1))
      = (if readByte (fun i => some (3 * i)) (0 * (2:Int).toNat + 1) % 2 = 0
          then Black else White) ∧
    (∀ b b2 : Nat, b % 2 = b2 % 2 → bwPixel b = bwPixel b2) :=
  keyGenBW_one_byte_lsb_rule 2 2 (fun i => some (3 * i)) 1 0 (by decide) (by decide)

/-- C6 counterexample.  The claim says `KeyGen` fails with an
`InvalidDimension` error for sizes ≤ 0; the code has no error channel at
all (`KeyGen(kw int, rgb bool) image.Image`) and returns an ordinary image:
an empty one for size 0, and — via `image.Rect`'s canonicalisation — a 5×5
all-zero image for size −5. -/
theorem keyGen_nonpositive_returns_image :
    (KeyGen 0 false (fun _ => some 0)).width = 0 ∧
    (KeyGen 0 false (fun _ => some 0)).height = 0 ∧
    (KeyGen (-5) false (fun _ => some 0)).width = 5 ∧
    (KeyGen (-5) true (fun _ => some 0)).height = 5 := by
  exact ⟨rfl, rfl, rfl, rfl⟩

/-- C6 amended.  For every requested size n ≤ 0 and either mode, `KeyGen`
does not fail: it returns an image whose canonicalised bounds have
width = height = |n| and whose pixels are all the zero color (the fill
loops do not run), with no `InvalidDimension` error anywhere in the code. -/
theorem keyGen_nonpositive_no_validation (n : Int) (hn : n ≤ 0) (rgb : Bool)
    (rng : Nat → Option Nat) :
    (KeyGen n rgb rng).width = n.natAbs ∧
    (KeyGen n rgb rng).height = n.natAbs ∧
    ∀ x y, (KeyGen n rgb rng).At x y = Color.zero := by
  have ht : n.toNat = 0 := by omega
  cases rgb
  · refine ⟨rfl, rfl, fun x y => ?_⟩
    show (if x < n.natAbs ∧ y < n.natAbs then
        if x < n.toNat ∧ y < n.toNat then
          expandNRGBA (nrgbaStore (Pixel.RGBA (bwPixel (readByte rng (y * n.toNat + x)))))
        else expandNRGBA ⟨0, 0, 0, 0⟩
      else Color.zero) = Color.zero
    rw [ht]
    by_cases h : x < n.natAbs ∧ y < n.natAbs
    · rw [if_pos h, if_neg (by omega)]
      rfl
    · rw [if_neg h]
  · refine ⟨rfl, rfl, fun x y => ?_⟩
    show (if x < n.natAbs ∧ y < n.natAbs then
        if x < n.toNat ∧ y < n.toNat then
          expandNRGBA (nrgbaStore (expandRGBA
            ⟨readByte rng (3 * (y * n.toNat + x)),
             readByte rng (3 * (y * n.toNat + x) + 1),
             readByte rng (3 * (y * n.toNat + x) + 2), 255⟩))
        else expandNRGBA ⟨0, 0, 0, 0⟩
      else Color.zero) = Color.zero
    rw [ht]
    by_cases h : x < n.natAbs ∧ y < n.natAbs
    · rw [if_pos h, if_neg (by omega)]
      rfl
    · rw [if_neg h]

/-- C6 amended, witness: size −3 in RGB mode yields an unvalidated 3×3
all-zero image. -/
theorem keyGen_nonpositive_no_validation_witness :
    (KeyGen (-3) true (fun _ => some 0)).width = (-3 : Int).natAbs ∧
    (KeyGen (-3) true (fun _ => some 0)).height = (-3 : Int).natAbs ∧
    ∀ x y, (KeyGen (-3) true (fun _ => some 0)).At x y = Color.zero :=
  keyGen_nonpositive_no_validation (-3) (by decide) true (fun _ => some 0)

/-- C7 counterexample.  The claim says a failed secure-random source makes
`KeyGen` fail with a `RandomSourceError`; in the code the error returned by
`rand.Read` is discarded, so with a source whose every read fails `KeyGen`
still returns a normal 2×2 image, identical in both modes to the one
generated from an all-zero byte stream. -/
theorem keyGen_ignores_random_failure :
    KeyGen 2 false (fun _ => none) = KeyGen 2 false (fun _ => some 0) ∧
    KeyGen 2 true (fun _ => none) = KeyGen 2 true (fun _ => some 0) ∧
    (KeyGen 2 false (fun _ => none)).width = 2 ∧
    (KeyGen 2 true (fun _ => none)).width = 2 := by
  refine ⟨?_, ?_, rfl, rfl⟩
  · show keyGenBW 2 2 (fun _ => none) = keyGenBW 2 2 (fun _ => some 0)
    unfold keyGenBW
    congr 1
  · show keyGenRGB 2 2 (fun _ => none) = keyGenRGB 2 2 (fun _ => some 0)
    unfold keyGenRGB
    congr 1

/-- C7 amended.  `KeyGen` never surfaces a random-source failure and never
switches to another randomness source: the error return of `rand.Read` is
discarded, so generation always completes and failed reads are
indistinguishable from reads of the zero byte the buffer was initialised
with. -/
theorem keyGen_random_failure_silent (kw : Int) (rgb : Bool)
    (rng : Nat → Option Nat) :
    KeyGen kw rgb rng = KeyGen kw rgb (fun i => some (readByte rng i)) := by
  have hb : ∀ i, readByte (fun j => some (readByte rng j)) i = readByte rng i := by
    intro i
    simp [readByte, Nat.mod_mod_of_dvd]
  cases rgb
  · show keyGenBW kw kw rng = keyGenBW kw kw (fun i => some (readByte rng i))
    refine Image.fields_eq rfl rfl (funext fun x => funext fun y => ?_)
    simp only [keyGenBW]
    simp only [hb]
  · show keyGenRGB kw kw rng = keyGenRGB kw kw (fun i => some (readByte rng i))
    refine Image.fields_eq rfl rfl (funext fun x => funext fun y => ?_)
    simp only [keyGenRGB]
    simp only [hb]

/-- C8.  For every source image, key image and color mode, the transform's
output — identically for `Encrypt` and `Decrypt` — has exactly the key's
width and height regardless of the source's dimensions and of what the
resize collaborator does: the output raster is allocated from the key's
bounds before any pixel work.  (The key itself is only ever read through
`At`; the pure embedding reflects that `Encrypt` mutates nothing.) -/
theorem Encrypt_output_geometry (resizeFn : Nat → Nat → Image → Image)
    (S K : Image) (rgb : Bool) :
    (Encrypt resizeFn S K rgb).width = K.width ∧
    (Encrypt resizeFn S K rgb).height = K.height ∧
    (Decrypt resizeFn S K rgb).width = K.width ∧
    (Decrypt resizeFn S K rgb).height = K.height :=
  ⟨rfl, rfl, rfl, rfl⟩

/-- C9.  For every positive size n and either color mode, `KeyGen` returns
a square image with width = height = n. -/
theorem KeyGen_square (n : Int) (hn : 0 < n) (rgb : Bool)
    (rng : Nat → Option Nat) :
    (KeyGen n rgb rng).width = n.toNat ∧
    (KeyGen n rgb rng).height = n.toNat := by
  have h : n.natAbs = n.toNat := by omega
  cases rgb
  · exact ⟨h, h⟩
  · exact ⟨h, h⟩

/-- C9 witness: a 2×2 RGB key. -/
theorem KeyGen_square_witness :
    (KeyGen 2 true (fun _ => some 0)).width = (2 : Int).toNat ∧
    (KeyGen 2 true (fun _ => some 0)).height = (2 : Int).toNat :=
  KeyGen_square 2 (by decide) true (fun _ => some 0)

/-- C10.  The historical `KeyGen` that takes the key-file path returns an
image independent of that path: for any two paths and the same size, mode
and random byte stream the results are identical (the path argument is
never used; the body performs no file I/O, which the pure embedding
reflects — persistence is the caller's separate `save` step). -/
theorem KeyGen_path_independent (p1 p2 : String) (kw : Int) (rgb : Bool)
    (rng : Nat → Option Nat) :
    KeyGenWithPath p1 kw rgb rng = KeyGenWithPath p2 kw rgb rng := rfl

end Gotpi
